import Mathlib

/-!
Shallow embedding of the fauna-types generator core.

Source files embedded:
  * src/cli/parseFaunaType.ts  — the recursive signature parser
    (parseFaunaType, parseFaunaObjectLiteral, isTopLevelUnion, splitUnion,
    splitObjectProperties)
  * src/cli/typesGenerator.ts  — the declaration emitter
    (checkOptional, checkDataType, extractDataTypeFromNonPrimitiveSignature,
    constructTypeValue, getFieldType, createType, generateTypes' pure core)

Strings are modelled as Lean String / List Char; JavaScript exceptions
(the regex match cast that can throw on a malformed signature) are
modelled as Option, none standing for a thrown TypeError.

parseFaunaType's recursion is embedded with an explicit fuel argument so
that the definition is structural (hence kernel-reducible on concrete
inputs); the theorem parseGo_isSome proves fuel equal to the input length
plus one always suffices, which is the termination argument of the source
function, and parseGo_fuelIrrel shows the result does not depend on the
fuel once it is sufficient, so the fuel is a pure embedding artifact.
-/

/-- The three rendering modes of the parser:
"main" | "create" | "faunaCreate" in the source. -/
inductive RenderMode where
  | main
  | create
  | faunaCreate
deriving DecidableEq, Repr

/-- Left trim: drop leading whitespace (String.prototype.trim, left half). -/
def ltrim (cs : List Char) : List Char := cs.dropWhile Char.isWhitespace

/-- Right trim: drop trailing whitespace (String.prototype.trim, right half). -/
def rtrim (cs : List Char) : List Char :=
  (cs.reverse.dropWhile Char.isWhitespace).reverse

/-- JS String.prototype.trim on the character list. -/
def trimL (cs : List Char) : List Char := rtrim (ltrim cs)

/-- JS s.endsWith(c) for a single character. -/
def lastIs (cs : List Char) (c : Char) : Bool := cs.getLast? == some c

/-- Step 1 of parseFaunaType: strip one trailing "?" (then re-trim),
`if (trimmed.endsWith("?")) trimmed = trimmed.slice(0, -1).trim()`. -/
def stripOpt (t : List Char) : List Char :=
  if lastIs t '?' then trimL t.dropLast else t

/-- One step of the bracket-depth bookkeeping shared by isTopLevelUnion,
splitUnion and splitObjectProperties:
`if (c === "{" || c === "<") depth++; if (c === "}" || c === ">") depth--`. -/
def updDepth (d : Int) (c : Char) : Int :=
  let d1 := if c = '{' ∨ c = '<' then d + 1 else d
  if c = '}' ∨ c = '>' then d1 - 1 else d1

/-- The scan inside isTopLevelUnion, generalized over the running depth. -/
def hasTopPipe : List Char → Int → Bool
  | [], _ => false
  | c :: rest, d =>
    let d1 := updDepth d c
    (c == '|' && d1 == 0) || hasTopPipe rest d1

/-- isTopLevelUnion from parseFaunaType.ts: is there a `|` at bracket
depth 0? -/
def isTopLevelUnion (cs : List Char) : Bool := hasTopPipe cs 0

/-- The scan inside splitUnion: `acc` holds the (reversed) characters of
the part being built, parts are trimmed as they are pushed. -/
def splitUnionAux : List Char → Int → List Char → List (List Char)
  | [], _, acc => [trimL acc.reverse]
  | c :: rest, d, acc =>
    let d1 := updDepth d c
    if c == '|' && d1 == 0 then trimL acc.reverse :: splitUnionAux rest d1 []
    else splitUnionAux rest d1 (c :: acc)

/-- splitUnion from parseFaunaType.ts: split on depth-0 `|`, trimming each
part. -/
def splitUnion (cs : List Char) : List (List Char) := splitUnionAux cs 0 []

/-- The scan inside splitObjectProperties (split on depth-0 commas). -/
def splitPropsAux : List Char → Int → List Char → List (List Char)
  | [], _, acc => [trimL acc.reverse]
  | c :: rest, d, acc =>
    let d1 := updDepth d c
    if c == ',' && d1 == 0 then trimL acc.reverse :: splitPropsAux rest d1 []
    else splitPropsAux rest d1 (c :: acc)

/-- splitObjectProperties from parseFaunaType.ts, including the final
`.filter(Boolean)` that removes empty strings. -/
def splitObjectProperties (inside : List Char) : List (List Char) :=
  (splitPropsAux inside 0 []).filter (fun p => !p.isEmpty)

/-- `prop.indexOf(":")` together with the two slices around it:
none when there is no colon (the defensive fallback branch). -/
def firstColonSplit : List Char → Option (List Char × List Char)
  | [] => none
  | c :: rest =>
    if c == ':' then some ([], rest)
    else (firstColonSplit rest).map (fun pr => (c :: pr.1, pr.2))

/-- Sequence a list through an Option-valued function (explicit so that
proofs and kernel evaluation stay elementary). -/
def optMapList {α β : Type} (f : α → Option β) : List α → Option (List β)
  | [] => some []
  | a :: rest =>
    match f a, optMapList f rest with
    | some b, some bs => some (b :: bs)
    | _, _ => none

/-- JS Array.prototype.join with a separator. -/
def joinSepL (sep : List Char) : List (List Char) → List Char
  | [] => []
  | [x] => x
  | x :: xs => x ++ sep ++ joinSepL sep xs

/-- Step 6 of parseFaunaType: the exact, case-sensitive scalar switch with
verbatim fallback. -/
def scalarOrFallback (t : List Char) : List Char :=
  if t = "String".data then "string".data
  else if t = "Boolean".data then "boolean".data
  else if t = "Long".data then "number".data
  else if t = "Int".data then "number".data
  else if t = "Time".data then "TimeStub".data
  else if t = "Date".data then "DateStub".data
  else if t = "Null".data then "null".data
  else t

/-- Steps 2–7 of parseFaunaType from parseFaunaType.ts, on the signature
`t` that step 1 has already trimmed and stripped of one trailing "?":
top-level union split, object literal (parseFaunaObjectLiteral inlined at
its single call site), Array unwrap, mode-sensitive Ref rendering, scalar
switch with verbatim fallback.  `recur` stands for the recursive call. -/
def parseStepT (recur : List Char → RenderMode → Option (List Char))
    (t : List Char) (m : RenderMode) : Option (List Char) :=
  if isTopLevelUnion t then
    (optMapList (fun part => recur part m) (splitUnion t)).map
      (fun parts => joinSepL " | ".data parts)
  else if (t.head? == some '{') && lastIs t '}' then
    (optMapList (fun prop =>
        match firstColonSplit prop with
        | none => some prop
        | some kv =>
          (recur (trimL kv.2) m).map
            (fun pv => trimL kv.1 ++ ": ".data ++ pv))
      (splitObjectProperties (trimL (t.drop 1).dropLast))).map
      (fun ps => "\x7b ".data ++ joinSepL "; ".data ps ++ " \x7d".data)
  else if ("Array<".data.isPrefixOf t) && lastIs t '>' then
    (recur (trimL (t.drop 6).dropLast) m).map
      (fun inner => "Array<".data ++ inner ++ ">".data)
  else if ("Ref<".data.isPrefixOf t) && lastIs t '>' then
    match m with
    | RenderMode.create =>
      some (trimL (t.drop 4).dropLast ++ " | DocumentReference".data)
    | RenderMode.faunaCreate => some ("DocumentReference".data)
    | RenderMode.main => some (trimL (t.drop 4).dropLast)
  else
    some (scalarOrFallback t)

/-- One full unfolding of parseFaunaType: step 1 (trim, strip one trailing
"?") followed by the dispatch of parseStepT. -/
def parseStep (recur : List Char → RenderMode → Option (List Char))
    (cs : List Char) (m : RenderMode) : Option (List Char) :=
  parseStepT recur (stripOpt (trimL cs)) m

/-- parseFaunaType from parseFaunaType.ts.  `fuel` makes the recursion
structural; none means the fuel ran out, which parseGo_isSome below shows
never happens when fuel exceeds the input length. -/
def parseGo : Nat → List Char → RenderMode → Option (List Char)
  | 0, _, _ => none
  | fuel + 1, cs, m => parseStep (fun cs2 m2 => parseGo fuel cs2 m2) cs m

/-- parseFaunaType at the character-list level, with the fuel instantiated
at the always-sufficient value. -/
def parseFaunaTypeL (cs : List Char) (m : RenderMode) : List Char :=
  (parseGo (cs.length + 1) cs m).getD []

/-- parseFaunaType on Lean strings. -/
def parseFaunaType (signature : String) (m : RenderMode) : String :=
  String.mk (parseFaunaTypeL signature.data m)

/-! ## The declaration emitter (typesGenerator.ts) -/

/-- One value of the Fields mapping: the usage in typesGenerator.ts reads
value.signature off each entry.  (The defining file system-types.ts is not
part of the sources; the shape is fixed by that usage and by the spec's
"ordered mapping of field name → Signature".) -/
structure FieldEntry where
  signature : String
deriving DecidableEq, Repr

/-- A Fields mapping, as the insertion-ordered entry list that
Object.entries produces. -/
abbrev Fields := List (String × FieldEntry)

/-- A record schema (NamedDocument<Collection>): name, optional fields
mapping, optional computed-fields mapping, per the destructuring
`({ name, fields, computed_fields })` in generateTypes. -/
structure Collection where
  name : String
  fields : Option Fields
  computed_fields : Option Fields

/-- checkOptional from typesGenerator.ts: value.endsWith("?"). -/
def checkOptional (value : String) : Bool := lastIs value.data '?'

/-- checkDataType from typesGenerator.ts: value.startsWith(expectedType). -/
def checkDataType (value : String) (expectedType : String) : Bool :=
  expectedType.data.isPrefixOf value.data

/-- The capture of the leftmost match of /Ref<([^>]+)>/ in the signature:
at each start position the literal "Ref<" must match, then one or more
characters other than the closing angle bracket, then that bracket.  none
models a null match (the source then throws on match[1]). -/
def refCapture : List Char → Option (List Char)
  | [] => none
  | c :: rest =>
    if "Ref<".data.isPrefixOf (c :: rest) then
      if 0 < (((c :: rest).drop 4).takeWhile (fun ch => ch != '>')).length
          && (((c :: rest).drop 4).takeWhile (fun ch => ch != '>')).length
            < ((c :: rest).drop 4).length
      then some (((c :: rest).drop 4).takeWhile (fun ch => ch != '>'))
      else refCapture rest
    else refCapture rest

/-- A character matched by [^<>] in the Array regex. -/
def isPlainChar (c : Char) : Bool := c != '<' && c != '>'

/-- The inner repetition (?:[^<>]+|<(?:[^<>]+)>)* of the Array regex,
matched greedily.  The two alternatives begin with distinct characters, so
the repetition is deterministic; fuel bounds the loop and the callers pass
the input length, which suffices because every iteration consumes at
least one character. -/
def matchCStar : Nat → List Char → (List Char × List Char)
  | 0, u => ([], u)
  | fuel + 1, u =>
    match u with
    | [] => ([], [])
    | c :: rest =>
      if isPlainChar c then
        let run := (c :: rest).takeWhile isPlainChar
        let next := matchCStar fuel ((c :: rest).drop run.length)
        (run ++ next.1, next.2)
      else if c == '<' then
        let run := rest.takeWhile isPlainChar
        if 0 < run.length && (rest.drop run.length).head? == some '>' then
          let next := matchCStar fuel ((rest.drop run.length).drop 1)
          ('<' :: (run ++ '>' :: next.1), next.2)
        else ([], c :: rest)
      else ([], c :: rest)

/-- The bracketed group <(?:[^<>]+|<(?:[^<>]+)>)*> of the Array regex:
an opening angle bracket, the inner repetition, a closing bracket. -/
def matchBGroup (u : List Char) : Option (List Char × List Char) :=
  match u with
  | '<' :: rest =>
    let inner := matchCStar rest.length rest
    match inner.2 with
    | '>' :: rest2 => some ('<' :: (inner.1 ++ ['>']), rest2)
    | _ => none
  | _ => none

/-- The capture group [^<>]*(?:<...>[^<>]*)* of the Array regex, matched
greedily.  No backtracking is needed: every proper stopping point of the
greedy scan is followed either by a plain character or by an opening
bracket, never by the closing bracket the regex then requires, so the
greedy result is the one the backtracking engine reports. -/
def matchGStar : Nat → List Char → (List Char × List Char)
  | 0, u => ([], u)
  | fuel + 1, u =>
    let a := u.takeWhile isPlainChar
    let r := u.drop a.length
    match matchBGroup r with
    | some br =>
      let g := matchGStar fuel br.2
      (a ++ br.1 ++ g.1, g.2)
    | none => (a, r)

/-- The capture of the leftmost match of
/Array<([^<>]*(?:<(?:[^<>]+|<(?:[^<>]+)>)*>[^<>]*)*)>/ in the signature:
the literal "Array<", the capture group, then a closing angle bracket. -/
def arrayCapture : List Char → Option (List Char)
  | [] => none
  | c :: rest =>
    if "Array<".data.isPrefixOf (c :: rest) then
      let tail := (c :: rest).drop 6
      let g := matchGStar tail.length tail
      if g.2.head? == some '>' then some g.1
      else arrayCapture rest
    else arrayCapture rest

/-- extractDataTypeFromNonPrimitiveSignature from typesGenerator.ts.
none models the TypeError the source raises when the regex has no match
(the null match result is cast and indexed unconditionally). -/
def extractDataTypeFromNonPrimitiveSignature
    (signatureType : String) (signature : String) : Option String :=
  if signatureType = "Ref" then (refCapture signature.data).map String.mk
  else (arrayCapture signature.data).map String.mk

/-- constructTypeValue from typesGenerator.ts. -/
def constructTypeValue (value : String) (isArray : Bool) : String :=
  if isArray then "Array<" ++ value ++ ">" else value

/-- getFieldType from typesGenerator.ts: the switch(true) over
checkDataType prefix tests, in source order, with the verbatim fallback.
Option threads the possible TypeError of the Ref extraction. -/
def getFieldType (value : String) (isArray : Bool) (typeSuffix : String) :
    Option String :=
  if checkDataType value "String" then some (constructTypeValue "string" isArray)
  else if checkDataType value "Boolean" then some (constructTypeValue "boolean" isArray)
  else if checkDataType value "Date" then some (constructTypeValue "DateStub" isArray)
  else if checkDataType value "Long" then some (constructTypeValue "number" isArray)
  else if checkDataType value "Int" then some (constructTypeValue "number" isArray)
  else if checkDataType value "Null" then some (constructTypeValue "null" isArray)
  else if checkDataType value "Time" then some (constructTypeValue "TimeStub" isArray)
  else if checkDataType value "Ref<" then
    (extractDataTypeFromNonPrimitiveSignature "Ref" value).map (fun collName =>
      let refType :=
        if typeSuffix ≠ "" then
          if typeSuffix = "_Create" then collName ++ " | DocumentReference"
          else "DocumentReference"
        else collName
      constructTypeValue refType isArray)
  else some (constructTypeValue value isArray)

/-- JS String.prototype.split("|"): plain split on every pipe character,
no depth awareness, empty pieces kept. -/
def splitOnPipe : List Char → List (List Char)
  | [] => [[]]
  | c :: rest =>
    if c == '|' then [] :: splitOnPipe rest
    else
      match splitOnPipe rest with
      | p :: ps => (c :: p) :: ps
      | [] => [[c]]

/-- JS Array.prototype.join on strings. -/
def joinSepS (sep : String) (xs : List String) : String :=
  String.mk (joinSepL sep.data (xs.map String.data))

/-- The body of the Object.entries(fields).forEach callback in createType:
the one line `\t key ?: type ;\n` contributed by a field. -/
def fieldLine (typeSuffix : String) (kv : String × FieldEntry) : Option String :=
  let isArray := checkDataType kv.2.signature "Array<"
  let optionalMark := if checkOptional kv.2.signature then "?" else ""
  let signatureOpt : Option String :=
    if isArray then
      (extractDataTypeFromNonPrimitiveSignature "Array" kv.2.signature).map
        (fun s => s ++ optionalMark)
    else some kv.2.signature
  signatureOpt.bind (fun signature =>
    let keyWithOptionalMark := kv.1 ++ optionalMark
    let isUnionType := signature.data.contains '|'
    if isUnionType then
      (optMapList
          (fun ty => getFieldType (String.mk (trimL ty)) isArray typeSuffix)
          (splitOnPipe signature.data)).map
        (fun types =>
          "\t" ++ keyWithOptionalMark ++ ": " ++ joinSepS " | " types ++ ";\n")
    else
      (getFieldType signature isArray typeSuffix).map
        (fun t => "\t" ++ keyWithOptionalMark ++ ": " ++ t ++ ";\n"))

/-- One step of the `typeStr +=` accumulation in createType: append the
field's line, propagating a thrown TypeError (none). -/
def createTypeFold (typeSuffix : String) (acc : Option String)
    (kv : String × FieldEntry) : Option String :=
  match acc, fieldLine typeSuffix kv with
  | some s, some line => some (s ++ line)
  | _, _ => none

/-- createType from typesGenerator.ts: the header, the field lines
accumulated left to right exactly as `typeStr +=` does, then "};". -/
def createType (name : String) (fields : Fields) (typeSuffix : String) :
    Option String :=
  (fields.foldl (createTypeFold typeSuffix)
      (some ("type " ++ name ++ typeSuffix ++ " = \x7b\n"))).map
    (fun s => s ++ "\x7d;")

/-- JS object spread { ...fields, ...computed_fields }: keys of fields in
order with values overridden by computed_fields, then the remaining keys
of computed_fields in their order. -/
def spreadMerge (f cf : Fields) : Fields :=
  f.map (fun kv =>
      (kv.1, ((cf.find? (fun kv2 => kv2.1 == kv.1)).map Prod.snd).getD kv.2))
    ++ cf.filter (fun kv2 => !(f.any (fun kv => kv.1 == kv2.1)))

/-- The seven names a record appends to exportTypeStr in generateTypes. -/
def exportEntry (name : String) : String :=
  "\n\t" ++ name ++ ",\n\t" ++ name ++ "_Create" ++ ",\n\t" ++ name
    ++ "_Update" ++ ",\n\t" ++ name ++ "_Replace" ++ ",\n\t" ++ name
    ++ "_FaunaCreate" ++ ",\n\t" ++ name ++ "_FaunaUpdate" ++ ",\n\t"
    ++ name ++ "_FaunaReplace" ++ ","

/-- The block a record appends to UserCollectionsTypeMappingStr in
generateTypes (the Fauna-suffixed variants are deliberately absent). -/
def mappingEntry (name : String) : String :=
  "\n\t" ++ name ++ ": \x7b" ++ "\n\t\t" ++ "main: " ++ name ++ ";"
    ++ "\n\t\t" ++ "create: " ++ name ++ "_Create;" ++ "\n\t\t"
    ++ "replace: " ++ name ++ "_Replace;" ++ "\n\t\t" ++ "update: "
    ++ name ++ "_Update;" ++ "\n\t" ++ "\x7d;"

/-- The schema.map callback of generateTypes.  some none is the undefined
returned for a record without fields; some (some block) is the record's
declaration block (main type, Create/Replace/Update, then the Fauna
variants); none propagates a thrown TypeError out of createType. -/
def recordBlock (c : Collection) : Option (Option String) :=
  match c.fields with
  | none => some none
  | some f =>
    let mainOpt :=
      match c.computed_fields with
      | some cf => createType c.name (spreadMerge f cf) ""
      | none => createType c.name f ""
    match mainOpt, createType c.name f "_Create",
        createType c.name f "_FaunaCreate" with
    | some genericTypes, some crudTypeStr, some faunaCrudTypeStr =>
      some (some (genericTypes ++ "\n\n" ++ crudTypeStr ++ "\n"
        ++ "type " ++ c.name ++ "_Replace = " ++ c.name ++ "_Create;" ++ "\n"
        ++ "type " ++ c.name ++ "_Update = Partial<" ++ c.name ++ "_Create>;"
        ++ "\n\n" ++ faunaCrudTypeStr ++ "\n"
        ++ "type " ++ c.name ++ "_FaunaReplace = " ++ c.name ++ "_FaunaCreate;"
        ++ "\n"
        ++ "type " ++ c.name ++ "_FaunaUpdate = Partial<" ++ c.name
        ++ "_FaunaCreate>;"))
    | _, _, _ => none

/-- exportTypeStr as generateTypes leaves it: entries accumulate, during
the single pass over the schema, only for records that have fields. -/
def exportTypeStrOf (schema : List Collection) : String :=
  schema.foldl
    (fun acc c =>
      match c.fields with
      | some _ => acc ++ exportEntry c.name
      | none => acc)
    "export type \x7b"

/-- UserCollectionsTypeMappingStr as generateTypes leaves it. -/
def mappingStrOf (schema : List Collection) : String :=
  schema.foldl
    (fun acc c =>
      match c.fields with
      | some _ => acc ++ mappingEntry c.name
      | none => acc)
    "interface UserCollectionsTypeMapping \x7b"

/-- The pure core of generateTypes: the typesStr document handed to the
file writer.  JS Array.prototype.join renders the undefined entries of
schema.map as empty strings; a thrown TypeError anywhere in the pass
aborts the whole run (none).  Directory creation and file writing are the
external collaborators and are not modelled. -/
def generateTypesDoc (schema : List Collection) : Option String :=
  (optMapList recordBlock schema).map (fun blocks =>
    let fieldTypes := joinSepS "\n\n" (blocks.map (fun b => b.getD ""))
    "import \x7b type TimeStub, type DateStub, type DocumentReference \x7d from \x27fauna\x27;"
      ++ "\n\n" ++ fieldTypes ++ "\n\n" ++ mappingStrOf schema ++ "\n\x7d"
      ++ "\n\n" ++ exportTypeStrOf schema
      ++ "\n\tUserCollectionsTypeMapping\n\x7d;" ++ "\n")

/-! ## Length bookkeeping for the parser's recursion -/

theorem dropWhile_length_le {α : Type} (p : α → Bool) :
    ∀ l : List α, (l.dropWhile p).length ≤ l.length := by
  intro l
  induction l with
  | nil => simp [List.dropWhile]
  | cons a rest ih =>
    by_cases hp : p a = true
    · simp only [List.dropWhile, hp, List.length_cons]
      omega
    · simp [List.dropWhile, hp]

theorem ltrim_length_le (cs : List Char) : (ltrim cs).length ≤ cs.length :=
  dropWhile_length_le _ _

theorem rtrim_length_le (cs : List Char) : (rtrim cs).length ≤ cs.length := by
  unfold rtrim
  calc (((cs.reverse).dropWhile Char.isWhitespace).reverse).length
      = ((cs.reverse).dropWhile Char.isWhitespace).length :=
        List.length_reverse _
    _ ≤ cs.reverse.length := dropWhile_length_le _ _
    _ = cs.length := List.length_reverse _

theorem trimL_length_le (cs : List Char) : (trimL cs).length ≤ cs.length :=
  le_trans (rtrim_length_le _) (ltrim_length_le _)

theorem stripOpt_length_le (t : List Char) : (stripOpt t).length ≤ t.length := by
  unfold stripOpt
  split
  · calc (trimL t.dropLast).length ≤ t.dropLast.length := trimL_length_le _
      _ ≤ t.length := by rw [List.length_dropLast]; omega
  · exact le_refl _

theorem trimL_reverse_length_le (acc : List Char) :
    (trimL acc.reverse).length ≤ acc.length := by
  calc (trimL acc.reverse).length ≤ acc.reverse.length := trimL_length_le _
    _ = acc.length := List.length_reverse _

theorem splitUnionAux_length_le :
    ∀ (cs : List Char) (d : Int) (acc p : List Char),
      p ∈ splitUnionAux cs d acc → p.length ≤ acc.length + cs.length := by
  intro cs
  induction cs with
  | nil =>
    intro d acc p hp
    simp only [splitUnionAux, List.mem_singleton] at hp
    subst hp
    simpa using trimL_reverse_length_le acc
  | cons c rest ih =>
    intro d acc p hp
    unfold splitUnionAux at hp
    by_cases hc : (c == '|' && updDepth d c == 0) = true
    · rw [if_pos hc] at hp
      rcases List.mem_cons.mp hp with h | h
      · subst h
        have := trimL_reverse_length_le acc
        simp only [List.length_cons]
        omega
      · have := ih _ _ _ h
        simp only [List.length_cons, List.length_nil] at this ⊢
        omega
    · rw [if_neg hc] at hp
      have := ih _ _ _ hp
      simp only [List.length_cons] at this ⊢
      omega

theorem splitUnionAux_length_lt :
    ∀ (cs : List Char) (d : Int) (acc p : List Char),
      hasTopPipe cs d = true → p ∈ splitUnionAux cs d acc →
      p.length + 1 ≤ acc.length + cs.length := by
  intro cs
  induction cs with
  | nil => intro d acc p hpipe; simp [hasTopPipe] at hpipe
  | cons c rest ih =>
    intro d acc p hpipe hp
    unfold splitUnionAux at hp
    unfold hasTopPipe at hpipe
    by_cases hc : (c == '|' && updDepth d c == 0) = true
    · rw [if_pos hc] at hp
      rcases List.mem_cons.mp hp with h | h
      · subst h
        have := trimL_reverse_length_le acc
        simp only [List.length_cons]
        omega
      · have := splitUnionAux_length_le _ _ _ _ h
        simp only [List.length_cons, List.length_nil] at this ⊢
        omega
    · rw [if_neg hc] at hp
      rw [Bool.or_eq_true] at hpipe
      rcases hpipe with h | h
      · exact absurd h hc
      · have := ih _ _ _ h hp
        simp only [List.length_cons] at this ⊢
        omega

theorem splitPropsAux_length_le :
    ∀ (cs : List Char) (d : Int) (acc p : List Char),
      p ∈ splitPropsAux cs d acc → p.length ≤ acc.length + cs.length := by
  intro cs
  induction cs with
  | nil =>
    intro d acc p hp
    simp only [splitPropsAux, List.mem_singleton] at hp
    subst hp
    simpa using trimL_reverse_length_le acc
  | cons c rest ih =>
    intro d acc p hp
    unfold splitPropsAux at hp
    by_cases hc : (c == ',' && updDepth d c == 0) = true
    · rw [if_pos hc] at hp
      rcases List.mem_cons.mp hp with h | h
      · subst h
        have := trimL_reverse_length_le acc
        simp only [List.length_cons]
        omega
      · have := ih _ _ _ h
        simp only [List.length_cons, List.length_nil] at this ⊢
        omega
    · rw [if_neg hc] at hp
      have := ih _ _ _ hp
      simp only [List.length_cons] at this ⊢
      omega

theorem splitObjectProperties_length_le (inside p : List Char)
    (hp : p ∈ splitObjectProperties inside) : p.length ≤ inside.length := by
  have hm := List.mem_of_mem_filter hp
  simpa using splitPropsAux_length_le _ _ _ _ hm

theorem firstColonSplit_snd_lt :
    ∀ (p a b : List Char), firstColonSplit p = some (a, b) →
      b.length < p.length := by
  intro p
  induction p with
  | nil => intro a b h; simp [firstColonSplit] at h
  | cons c rest ih =>
    intro a b h
    unfold firstColonSplit at h
    by_cases hc : (c == ':') = true
    · rw [if_pos hc] at h
      cases h
      simp
    · rw [if_neg hc] at h
      rw [Option.map_eq_some'] at h
      obtain ⟨pr, hpr, heq⟩ := h
      cases heq
      have := ih _ _ hpr
      simp only [List.length_cons]
      omega

theorem optMapList_isSome {α β : Type} (f : α → Option β) (l : List α)
    (h : ∀ a ∈ l, (f a).isSome) : (optMapList f l).isSome := by
  induction l with
  | nil => rfl
  | cons a rest ih =>
    obtain ⟨b, hb⟩ := Option.isSome_iff_exists.mp (h a (List.mem_cons_self a rest))
    obtain ⟨bs, hbs⟩ :=
      Option.isSome_iff_exists.mp (ih fun x hx => h x (List.mem_cons_of_mem _ hx))
    simp [optMapList, hb, hbs]

theorem optMapList_congr {α β : Type} (f g : α → Option β) (l : List α)
    (h : ∀ a ∈ l, f a = g a) : optMapList f l = optMapList g l := by
  induction l with
  | nil => rfl
  | cons a rest ih =>
    unfold optMapList
    rw [h a (List.mem_cons_self a rest),
      ih fun x hx => h x (List.mem_cons_of_mem _ hx)]

theorem optIsSome_map {α β : Type} (f : α → β) (o : Option α) :
    (o.map f).isSome = o.isSome := by
  cases o <;> rfl

theorem parseStepT_congr
    (f g : List Char → RenderMode → Option (List Char))
    (t : List Char) (m : RenderMode)
    (h : ∀ u m2, u.length < t.length → f u m2 = g u m2) :
    parseStepT f t m = parseStepT g t m := by
  unfold parseStepT
  by_cases h1 : isTopLevelUnion t = true
  · rw [if_pos h1, if_pos h1]
    refine congrArg _ (optMapList_congr _ _ _ ?_)
    intro part hpart
    refine h part m ?_
    unfold isTopLevelUnion at h1
    have := splitUnionAux_length_lt t 0 [] part h1 hpart
    simp only [List.length_nil] at this
    omega
  · rw [if_neg h1, if_neg h1]
    by_cases h2 : ((t.head? == some '{') && lastIs t '}') = true
    · rw [if_pos h2, if_pos h2]
      refine congrArg _ (optMapList_congr _ _ _ ?_)
      intro prop hprop
      cases hsplit : firstColonSplit prop with
      | none => rfl
      | some kv =>
        obtain ⟨ka, kb⟩ := kv
        dsimp only
        refine congrArg _ (h (trimL kb) m ?_)
        have hb : kb.length < prop.length := firstColonSplit_snd_lt _ _ _ hsplit
        have hpi : prop.length ≤ (trimL (t.drop 1).dropLast).length :=
          splitObjectProperties_length_le _ _ hprop
        have hin : (trimL (t.drop 1).dropLast).length ≤ (t.drop 1).dropLast.length :=
          trimL_length_le _
        have htr : (trimL kb).length ≤ kb.length := trimL_length_le _
        have hd1 : (t.drop 1).dropLast.length = (t.drop 1).length - 1 :=
          List.length_dropLast _
        have hd2 : (t.drop 1).length = t.length - 1 := List.length_drop _ _
        omega
    · rw [if_neg h2, if_neg h2]
      by_cases h3 : (("Array<".data.isPrefixOf t) && lastIs t '>') = true
      · rw [if_pos h3, if_pos h3]
        refine congrArg _ (h (trimL (t.drop 6).dropLast) m ?_)
        rcases Bool.and_eq_true _ _ |>.mp h3 with ⟨h3a, _⟩
        have hpre : ("Array<".data) <+: t := by
          exact List.isPrefixOf_iff_prefix.mp h3a
        have hlen : 6 ≤ t.length := by
          have := hpre.length_le
          simpa using this
        have htr : (trimL (t.drop 6).dropLast).length ≤ (t.drop 6).dropLast.length :=
          trimL_length_le _
        have hd1 : (t.drop 6).dropLast.length = (t.drop 6).length - 1 :=
          List.length_dropLast _
        have hd2 : (t.drop 6).length = t.length - 6 := List.length_drop _ _
        omega
      · rw [if_neg h3, if_neg h3]

theorem parseStepT_isSome
    (f : List Char → RenderMode → Option (List Char))
    (t : List Char) (m : RenderMode)
    (hf : ∀ u m2, u.length < t.length → (f u m2).isSome) :
    (parseStepT f t m).isSome := by
  unfold parseStepT
  by_cases h1 : isTopLevelUnion t = true
  · rw [if_pos h1, optIsSome_map]
    refine optMapList_isSome _ _ ?_
    intro part hpart
    refine hf part m ?_
    unfold isTopLevelUnion at h1
    have := splitUnionAux_length_lt t 0 [] part h1 hpart
    simp only [List.length_nil] at this
    omega
  · rw [if_neg h1]
    by_cases h2 : ((t.head? == some '{') && lastIs t '}') = true
    · rw [if_pos h2, optIsSome_map]
      refine optMapList_isSome _ _ ?_
      intro prop hprop
      cases hsplit : firstColonSplit prop with
      | none => rfl
      | some kv =>
        obtain ⟨ka, kb⟩ := kv
        dsimp only
        rw [optIsSome_map]
        refine hf (trimL kb) m ?_
        have hb : kb.length < prop.length := firstColonSplit_snd_lt _ _ _ hsplit
        have hpi : prop.length ≤ (trimL (t.drop 1).dropLast).length :=
          splitObjectProperties_length_le _ _ hprop
        have hin : (trimL (t.drop 1).dropLast).length ≤ (t.drop 1).dropLast.length :=
          trimL_length_le _
        have htr : (trimL kb).length ≤ kb.length := trimL_length_le _
        have hd1 : (t.drop 1).dropLast.length = (t.drop 1).length - 1 :=
          List.length_dropLast _
        have hd2 : (t.drop 1).length = t.length - 1 := List.length_drop _ _
        omega
    · rw [if_neg h2]
      by_cases h3 : (("Array<".data.isPrefixOf t) && lastIs t '>') = true
      · rw [if_pos h3, optIsSome_map]
        refine hf (trimL (t.drop 6).dropLast) m ?_
        rcases Bool.and_eq_true _ _ |>.mp h3 with ⟨h3a, _⟩
        have hpre : ("Array<".data) <+: t := List.isPrefixOf_iff_prefix.mp h3a
        have hlen : 6 ≤ t.length := by
          have := hpre.length_le
          simpa using this
        have htr : (trimL (t.drop 6).dropLast).length ≤ (t.drop 6).dropLast.length :=
          trimL_length_le _
        have hd1 : (t.drop 6).dropLast.length = (t.drop 6).length - 1 :=
          List.length_dropLast _
        have hd2 : (t.drop 6).length = t.length - 6 := List.length_drop _ _
        omega
      · rw [if_neg h3]
        by_cases h4 : (("Ref<".data.isPrefixOf t) && lastIs t '>') = true
        · rw [if_pos h4]
          cases m <;> rfl
        · rw [if_neg h4]
          rfl

theorem tOf_length_le (cs : List Char) :
    (stripOpt (trimL cs)).length ≤ cs.length :=
  le_trans (stripOpt_length_le _) (trimL_length_le _)

/-- A sufficient fuel never runs out: the recursion of parseFaunaType
terminates because every recursive call is on a strictly shorter
signature. -/
theorem parseGo_isSome :
    ∀ (fuel : Nat) (cs : List Char) (m : RenderMode),
      cs.length < fuel → (parseGo fuel cs m).isSome := by
  intro fuel
  induction fuel with
  | zero => intro cs m h; exact absurd h (Nat.not_lt_zero _)
  | succ fuel ih =>
    intro cs m h
    show (parseStep (fun cs2 m2 => parseGo fuel cs2 m2) cs m).isSome
    unfold parseStep
    refine parseStepT_isSome _ _ _ ?_
    intro u m2 hu
    refine ih u m2 ?_
    have := tOf_length_le cs
    omega

/-- Two runs of parseGo agree whenever both fuels are sufficient and both
inputs trim-and-strip to the same signature. -/
theorem parseGo_ext :
    ∀ (f1 : Nat) (cs1 : List Char) (f2 : Nat) (cs2 : List Char)
      (m : RenderMode),
      cs1.length < f1 → cs2.length < f2 →
      stripOpt (trimL cs1) = stripOpt (trimL cs2) →
      parseGo f1 cs1 m = parseGo f2 cs2 m := by
  intro f1
  induction f1 with
  | zero => intro cs1 f2 cs2 m h1; exact absurd h1 (Nat.not_lt_zero _)
  | succ k ih =>
    intro cs1 f2 cs2 m h1 h2 heq
    cases f2 with
    | zero => exact absurd h2 (Nat.not_lt_zero _)
    | succ l =>
      show parseStep (fun cs2 m2 => parseGo k cs2 m2) cs1 m
        = parseStep (fun cs2 m2 => parseGo l cs2 m2) cs2 m
      unfold parseStep
      rw [heq]
      refine parseStepT_congr _ _ _ _ ?_
      intro u m2 hu
      have hb1 : (stripOpt (trimL cs2)).length ≤ cs1.length := by
        rw [← heq]; exact tOf_length_le cs1
      have hb2 : (stripOpt (trimL cs2)).length ≤ cs2.length := tOf_length_le cs2
      refine ih u l u m2 ?_ ?_ rfl
      · omega
      · omega

/-- The fuel is an embedding artifact: any two sufficient fuels give the
same result. -/
theorem parseGo_fuelIrrel (f1 f2 : Nat) (cs : List Char) (m : RenderMode)
    (h1 : cs.length < f1) (h2 : cs.length < f2) :
    parseGo f1 cs m = parseGo f2 cs m :=
  parseGo_ext f1 cs f2 cs m h1 h2 rfl

/-! ## Claim theorems -/

/-- C1: for the record User with fields in order
name: "String", age: "Long?", bestFriend: "Ref<User>?", the emitted Main
declaration carries the property lines `name: string; age?: number;
bestFriend?: User;`, the _Create declaration carries
`bestFriend?: User | DocumentReference;` and the _FaunaCreate declaration
carries `bestFriend?: DocumentReference;` (each conjunct gives the whole
declaration, which contains the claimed lines). -/
theorem user_record_end_to_end :
    createType "User"
        [("name", ⟨"String"⟩), ("age", ⟨"Long?"⟩), ("bestFriend", ⟨"Ref<User>?"⟩)]
        ""
      = some "type User = \x7b\n\tname: string;\n\tage?: number;\n\tbestFriend?: User;\n\x7d;"
    ∧ createType "User"
        [("name", ⟨"String"⟩), ("age", ⟨"Long?"⟩), ("bestFriend", ⟨"Ref<User>?"⟩)]
        "_Create"
      = some "type User_Create = \x7b\n\tname: string;\n\tage?: number;\n\tbestFriend?: User | DocumentReference;\n\x7d;"
    ∧ createType "User"
        [("name", ⟨"String"⟩), ("age", ⟨"Long?"⟩), ("bestFriend", ⟨"Ref<User>?"⟩)]
        "_FaunaCreate"
      = some "type User_FaunaCreate = \x7b\n\tname: string;\n\tage?: number;\n\tbestFriend?: DocumentReference;\n\x7d;" := by
  refine ⟨by decide, by decide, by decide⟩

/-- C3: the parser maps "Array<Ref<User>>" to "Array<User>" in main mode,
"Array<User | DocumentReference>" in create mode and
"Array<DocumentReference>" in faunaCreate mode; the first conjunct shows
the mode is passed unchanged through the Array recursion (the result is
always the Array wrapper around the Ref step's mode-dependent output). -/
theorem arrayRef_all_modes :
    (∀ m : RenderMode,
        parseFaunaType "Array<Ref<User>>" m
          = "Array<" ++ parseFaunaType "Ref<User>" m ++ ">")
    ∧ parseFaunaType "Array<Ref<User>>" RenderMode.main = "Array<User>"
    ∧ parseFaunaType "Array<Ref<User>>" RenderMode.create
        = "Array<User | DocumentReference>"
    ∧ parseFaunaType "Array<Ref<User>>" RenderMode.faunaCreate
        = "Array<DocumentReference>" := by
  refine ⟨?_, by decide, by decide, by decide⟩
  intro m
  cases m <;> decide

theorem updDepth_pipe (d : Int) : updDepth d '|' = d := rfl

/-- The depth-counting scan finds a pipe exactly when some position holds
a pipe with the bracket depth accumulated over the preceding characters
equal to zero. -/
theorem hasTopPipe_iff :
    ∀ (cs : List Char) (d : Int),
      hasTopPipe cs d = true ↔
        ∃ i, i < cs.length ∧ cs.getD i ' ' = '|'
          ∧ (cs.take i).foldl updDepth d = 0 := by
  intro cs
  induction cs with
  | nil =>
    intro d
    simp [hasTopPipe]
  | cons c rest ih =>
    intro d
    rw [hasTopPipe]
    rw [Bool.or_eq_true, Bool.and_eq_true]
    constructor
    · rintro (⟨hc, hd⟩ | h)
      · have hc2 : c = '|' := by simpa using hc
        have hd2 : updDepth d c = 0 := by simpa using hd
        subst hc2
        rw [updDepth_pipe] at hd2
        exact ⟨0, by simp, by simp, by simpa using hd2⟩
      · obtain ⟨i, hi, hget, hfold⟩ := (ih (updDepth d c)).mp h
        refine ⟨i + 1, ?_, ?_, ?_⟩
        · simp only [List.length_cons]; omega
        · simpa using hget
        · simpa using hfold
    · rintro ⟨i, hi, hget, hfold⟩
      cases i with
      | zero =>
        left
        have hc : c = '|' := by simpa using hget
        have hd0 : d = 0 := by simpa using hfold
        subst hc
        refine ⟨by simp, ?_⟩
        rw [updDepth_pipe]
        simpa using hd0
      | succ j =>
        right
        refine (ih (updDepth d c)).mpr ⟨j, ?_, ?_, ?_⟩
        · simp only [List.length_cons] at hi; omega
        · simpa using hget
        · simpa using hfold

/-- C4: a pipe inside braces or angle brackets is never a top-level union
split — isTopLevelUnion holds exactly when some pipe sits at bracket
depth 0 (depth up by brace/angle open, down by brace/angle close) — and
the object literal with an inner union parses to one property whose value
is the union, not to two top-level alternatives. -/
theorem union_split_depth0_only :
    (∀ cs : List Char,
        isTopLevelUnion cs = true ↔
          ∃ i, i < cs.length ∧ cs.getD i ' ' = '|'
            ∧ (cs.take i).foldl updDepth 0 = 0)
    ∧ parseFaunaType "\x7b x: String | Boolean \x7d" RenderMode.main
        = "\x7b x: string | boolean \x7d" := by
  refine ⟨?_, by decide⟩
  intro cs
  exact hasTopPipe_iff cs 0

/-- A Boolean test for the parser's fallback branch: after trimming and
stripping one trailing "?", the signature is not a union, not an object
literal, not an Array form, not a Ref form, and not a known scalar. -/
def isUnrecognizedSignature (s : String) : Bool :=
  !(isTopLevelUnion (stripOpt (trimL s.data)))
    && !(((stripOpt (trimL s.data)).head? == some '{')
          && lastIs (stripOpt (trimL s.data)) '}')
    && !(("Array<".data.isPrefixOf (stripOpt (trimL s.data)))
          && lastIs (stripOpt (trimL s.data)) '>')
    && !(("Ref<".data.isPrefixOf (stripOpt (trimL s.data)))
          && lastIs (stripOpt (trimL s.data)) '>')
    && !(stripOpt (trimL s.data) == "String".data)
    && !(stripOpt (trimL s.data) == "Boolean".data)
    && !(stripOpt (trimL s.data) == "Long".data)
    && !(stripOpt (trimL s.data) == "Int".data)
    && !(stripOpt (trimL s.data) == "Time".data)
    && !(stripOpt (trimL s.data) == "Date".data)
    && !(stripOpt (trimL s.data) == "Null".data)

theorem parseGo_succ_eq (k : Nat) (cs : List Char) (m : RenderMode) :
    parseGo (k + 1) cs m = parseStep (fun a b => parseGo k a b) cs m := rfl

/-- C6: parseFaunaType is total — the recursion terminates because every
recursive call is on a strictly shorter signature, so fuel one larger
than the input length always returns some result, and the wrapper's
result is that value; unrecognized fragments are returned unchanged
(trimmed, one trailing "?" stripped) rather than failing. -/
theorem parseFaunaType_total_and_fallback :
    (∀ (fuel : Nat) (cs : List Char) (m : RenderMode),
        cs.length < fuel → (parseGo fuel cs m).isSome)
    ∧ (∀ (s : String) (m : RenderMode),
        parseGo (s.data.length + 1) s.data m = some (parseFaunaType s m).data)
    ∧ (∀ (s : String) (m : RenderMode),
        isUnrecognizedSignature s = true →
        parseFaunaType s m = String.mk (stripOpt (trimL s.data))) := by
  refine ⟨parseGo_isSome, ?_, ?_⟩
  · intro s m
    obtain ⟨t, ht⟩ := Option.isSome_iff_exists.mp
      (parseGo_isSome (s.data.length + 1) s.data m (by omega))
    rw [ht]
    unfold parseFaunaType parseFaunaTypeL
    rw [ht]
    rfl
  · intro s m h
    unfold isUnrecognizedSignature at h
    simp only [Bool.and_eq_true, Bool.not_eq_true'] at h
    obtain ⟨⟨⟨⟨⟨⟨⟨⟨⟨⟨h1, h2⟩, h3⟩, h4⟩, h5⟩, h6⟩, h7⟩, h8⟩, h9⟩, h10⟩, h11⟩ := h
    unfold parseFaunaType parseFaunaTypeL
    rw [parseGo_succ_eq]
    unfold parseStep parseStepT
    rw [if_neg (by rw [h1]; exact Bool.false_ne_true),
      if_neg (by rw [h2]; exact Bool.false_ne_true),
      if_neg (by rw [h3]; exact Bool.false_ne_true),
      if_neg (by rw [h4]; exact Bool.false_ne_true)]
    unfold scalarOrFallback
    rw [if_neg (by simpa using h5), if_neg (by simpa using h6),
      if_neg (by simpa using h7), if_neg (by simpa using h8),
      if_neg (by simpa using h9), if_neg (by simpa using h10),
      if_neg (by simpa using h11)]
    rfl

theorem dropWhile_eq_self_of_all {α : Type} (p : α → Bool) :
    ∀ l : List α, (∀ c ∈ l, p c = false) → l.dropWhile p = l := by
  intro l h
  cases l with
  | nil => rfl
  | cons a rest =>
    have ha := h a (List.mem_cons_self a rest)
    simp [List.dropWhile, ha]

theorem ltrim_append_nonws :
    ∀ (xs : List Char) (c : Char), Char.isWhitespace c = false →
      ltrim (xs ++ [c]) = ltrim xs ++ [c] := by
  intro xs
  induction xs with
  | nil =>
    intro c hc
    simp [ltrim, List.dropWhile, hc]
  | cons x rest ih =>
    intro c hc
    by_cases hx : Char.isWhitespace x = true
    · simp only [List.cons_append, ltrim, List.dropWhile, hx]
      exact ih c hc
    · simp only [Bool.not_eq_true] at hx
      simp [ltrim, List.dropWhile, hx]

theorem rtrim_append_nonws (ys : List Char) (c : Char)
    (hc : Char.isWhitespace c = false) : rtrim (ys ++ [c]) = ys ++ [c] := by
  unfold rtrim
  rw [List.reverse_append]
  simp only [List.reverse_singleton, List.singleton_append, List.dropWhile, hc]
  simp

theorem ltrim_idem (xs : List Char) : ltrim (ltrim xs) = ltrim xs := by
  induction xs with
  | nil => rfl
  | cons x rest ih =>
    by_cases hx : Char.isWhitespace x = true
    · simp only [ltrim, List.dropWhile, hx]
      exact ih
    · simp only [Bool.not_eq_true] at hx
      simp [ltrim, List.dropWhile, hx]

theorem trimL_ltrim (xs : List Char) : trimL (ltrim xs) = trimL xs := by
  unfold trimL
  rw [ltrim_idem]

/-- Appending "?" and then running step 1 of the parser lands on the same
trimmed-and-stripped text as the original, provided the original does not
already end (after trimming) with "?". -/
theorem stripOpt_trim_append_q (xs : List Char)
    (h : lastIs (trimL xs) '?' = false) :
    stripOpt (trimL (xs ++ ['?'])) = stripOpt (trimL xs) := by
  have hq : Char.isWhitespace '?' = false := rfl
  have h1 : trimL (xs ++ ['?']) = ltrim xs ++ ['?'] := by
    unfold trimL
    rw [ltrim_append_nonws xs '?' hq]
    exact rtrim_append_nonws (ltrim xs) '?' hq
  rw [h1]
  unfold stripOpt
  rw [if_pos (by simp [lastIs]), if_neg (by rw [h]; exact Bool.false_ne_true)]
  rw [List.dropLast_concat]
  exact trimL_ltrim xs

/-- C5 counterexample: appending "?" to a signature that already ends in
"?" changes the parse — "Long??" strips to "Long?", which is not a scalar
and falls through verbatim, while "Long?" strips to "Long" and parses to
"number". -/
theorem stripOpt_not_idem_on_trailing_q :
    parseFaunaType ("Long?" ++ "?") RenderMode.main = "Long?"
    ∧ parseFaunaType "Long?" RenderMode.main = "number"
    ∧ ¬ (parseFaunaType ("Long?" ++ "?") RenderMode.main
          = parseFaunaType "Long?" RenderMode.main) := by
  refine ⟨by decide, by decide, by decide⟩

/-- C5 (amended): optional-stripping is idempotent at the parser
interface for every signature whose trimmed text does not already end in
"?": parseFaunaType (X ++ "?") m = parseFaunaType X m. -/
theorem parseFaunaType_stripOpt_idem (X : String) (m : RenderMode)
    (h : lastIs (trimL X.data) '?' = false) :
    parseFaunaType (X ++ "?") m = parseFaunaType X m := by
  have hdata : (X ++ "?").data = X.data ++ ['?'] := rfl
  unfold parseFaunaType parseFaunaTypeL
  rw [hdata]
  refine congrArg (fun o => String.mk (Option.getD o [])) ?_
  refine parseGo_ext _ _ _ _ m (by simp) (by omega) ?_
  exact stripOpt_trim_append_q X.data h

/-- Witness for the amended C5 at the concrete signature "Long". -/
theorem parseFaunaType_stripOpt_idem_witness :
    parseFaunaType ("Long" ++ "?") RenderMode.main
      = parseFaunaType "Long" RenderMode.main :=
  parseFaunaType_stripOpt_idem "Long" RenderMode.main (by decide)

/-- The rendering mode that corresponds to each of the three type
suffixes the Emitter passes to createType: Main for "", create for
"_Create", faunaCreate for "_FaunaCreate". -/
def modeOfSuffix (typeSuffix : String) : RenderMode :=
  if typeSuffix = "_Create" then RenderMode.create
  else if typeSuffix = "_FaunaCreate" then RenderMode.faunaCreate
  else RenderMode.main

/-- C2 counterexample: the Emitter does not call the Signature Parser —
an object-literal field signature is passed through verbatim by
getFieldType (the fallback case), so the Main declaration shows
"\x7b a: Int \x7d" where parseFaunaType yields "\x7b a: number \x7d". -/
theorem emitter_parser_divergence :
    createType "T" [("a", ⟨"\x7b a: Int \x7d"⟩)] ""
        = some "type T = \x7b\n\ta: \x7b a: Int \x7d;\n\x7d;"
    ∧ parseFaunaType "\x7b a: Int \x7d" RenderMode.main = "\x7b a: number \x7d"
    ∧ ¬ (fieldLine "" ("a", ⟨"\x7b a: Int \x7d"⟩)
          = some ("\ta: "
              ++ parseFaunaType "\x7b a: Int \x7d" RenderMode.main ++ ";\n")) := by
  refine ⟨by decide, by decide, by decide⟩

theorem takeWhile_ne_gt (name : List Char) (h : ∀ c ∈ name, c ≠ '>') :
    (name ++ ['>']).takeWhile (fun ch => ch != '>') = name := by
  induction name with
  | nil => rfl
  | cons c rest ih =>
    have hc : (c != '>') = true := by
      simpa using h c (List.mem_cons_self c rest)
    simp only [List.cons_append, List.takeWhile_cons, hc]
    rw [ih fun x hx => h x (List.mem_cons_of_mem _ hx)]
    simp

theorem isPrefixOf_append2 {α : Type} [DecidableEq α] :
    ∀ (xs ys zs : List α), xs.isPrefixOf ((xs ++ ys) ++ zs) = true := by
  intro xs ys zs
  rw [List.isPrefixOf_iff_prefix]
  exact ⟨ys ++ zs, by rw [List.append_assoc]⟩

theorem refCapture_plain (name : List Char) (hne : name ≠ [])
    (h : ∀ c ∈ name, c ≠ '>') :
    refCapture ("Ref<".data ++ name ++ ['>']) = some name := by
  show refCapture ('R' :: 'e' :: 'f' :: '<' :: (name ++ ['>'])) = some name
  rw [refCapture]
  rw [if_pos (show ("Ref<".data.isPrefixOf
    ('R' :: 'e' :: 'f' :: '<' :: (name ++ ['>']))) = true from
      isPrefixOf_append2 "Ref<".data name ['>'])]
  have hdrop : ('R' :: 'e' :: 'f' :: '<' :: (name ++ ['>'])).drop 4
      = name ++ ['>'] := rfl
  rw [hdrop]
  rw [takeWhile_ne_gt name h]
  have h1 : 0 < name.length := List.length_pos.mpr hne
  have h2 : name.length < (name ++ ['>']).length := by simp
  rw [if_pos (by simp [h1, h2])]

theorem trimL_eq_self_of_all (l : List Char)
    (h : ∀ c ∈ l, Char.isWhitespace c = false) : trimL l = l := by
  unfold trimL ltrim rtrim
  rw [dropWhile_eq_self_of_all _ l h]
  rw [dropWhile_eq_self_of_all _ l.reverse
    (fun c hc => h c (List.mem_reverse.mp hc))]
  exact List.reverse_reverse l

theorem hasTopPipe_eq_false_of_no_pipe :
    ∀ (l : List Char) (d : Int), (∀ c ∈ l, c ≠ '|') →
      hasTopPipe l d = false := by
  intro l
  induction l with
  | nil => intro d _; rfl
  | cons c rest ih =>
    intro d h
    have hc : (c == '|') = false := by
      simpa using h c (List.mem_cons_self c rest)
    rw [hasTopPipe]
    rw [Bool.or_eq_false_iff]
    refine ⟨by rw [Bool.and_eq_false_iff]; exact Or.inl hc, ?_⟩
    exact ih _ fun x hx => h x (List.mem_cons_of_mem _ hx)

theorem refPlain_chars (name : List Char)
    (h : ∀ c ∈ name, c ≠ '>' ∧ c ≠ '|' ∧ Char.isWhitespace c = false) :
    (∀ c ∈ ("Ref<".data ++ name ++ ['>']), Char.isWhitespace c = false)
    ∧ (∀ c ∈ ("Ref<".data ++ name ++ ['>']), c ≠ '|') := by
  constructor <;>
  · intro c hc
    rw [List.mem_append, List.mem_append] at hc
    rcases hc with (hc | hc) | hc
    · have : c = 'R' ∨ c = 'e' ∨ c = 'f' ∨ c = '<' := by simpa using hc
      rcases this with rfl | rfl | rfl | rfl <;> decide
    · rcases h c hc with ⟨_, h2, h3⟩
      first
        | exact h3
        | exact h2
    · have : c = '>' := by simpa using hc
      subst this
      decide

theorem parseFaunaTypeL_refPlain (name : List Char) (m : RenderMode)
    (h : ∀ c ∈ name, c ≠ '>' ∧ c ≠ '|' ∧ Char.isWhitespace c = false) :
    parseFaunaTypeL ("Ref<".data ++ name ++ ['>']) m
      = (match m with
          | RenderMode.main => name
          | RenderMode.create => name ++ " | DocumentReference".data
          | RenderMode.faunaCreate => "DocumentReference".data) := by
  obtain ⟨hws, hpipe⟩ := refPlain_chars name h
  have htrim : trimL ("Ref<".data ++ name ++ ['>'])
      = "Ref<".data ++ name ++ ['>'] := trimL_eq_self_of_all _ hws
  have hlast : ("Ref<".data ++ name ++ ['>']).getLast? = some '>' :=
    List.getLast?_concat _
  have hlastq : lastIs ("Ref<".data ++ name ++ ['>']) '?' = false := by
    unfold lastIs
    rw [hlast]
    rfl
  have hlastg : lastIs ("Ref<".data ++ name ++ ['>']) '>' = true := by
    unfold lastIs
    rw [hlast]
    rfl
  have hstrip : stripOpt ("Ref<".data ++ name ++ ['>'])
      = "Ref<".data ++ name ++ ['>'] := by
    unfold stripOpt
    rw [hlastq]
    rfl
  unfold parseFaunaTypeL
  rw [parseGo_succ_eq]
  unfold parseStep
  rw [htrim, hstrip]
  unfold parseStepT
  rw [if_neg (by
    unfold isTopLevelUnion
    rw [hasTopPipe_eq_false_of_no_pipe _ 0 hpipe]
    exact Bool.false_ne_true)]
  rw [if_neg (by exact Bool.false_ne_true)]
  rw [if_neg (by exact Bool.false_ne_true)]
  rw [if_pos (by
    rw [Bool.and_eq_true]
    exact ⟨isPrefixOf_append2 "Ref<".data name ['>'], hlastg⟩)]
  have hdrop : ("Ref<".data ++ name ++ ['>']).drop 4 = name ++ ['>'] := rfl
  have hcore : trimL ((("Ref<".data ++ name ++ ['>']).drop 4).dropLast)
      = name := by
    rw [hdrop, List.dropLast_concat]
    exact trimL_eq_self_of_all name fun c hc => (h c hc).2.2
  rw [hcore]
  cases m <;> rfl

/-- C2 (amended): the Emitter renders field types with its own
getFieldType, not by calling the Signature Parser; the two agree on
exact scalar keyword signatures and on plain reference signatures
Ref<Name> (Name nonempty, without closing bracket, pipe or whitespace)
in each rendering mode, but not in general — see
emitter_parser_divergence for the object-literal signature on which they
differ. -/
theorem emitter_getFieldType_agreement :
    (∀ (sfx sig : String),
        (sfx = "" ∨ sfx = "_Create" ∨ sfx = "_FaunaCreate") →
        (sig = "String" ∨ sig = "Boolean" ∨ sig = "Long" ∨ sig = "Int"
          ∨ sig = "Time" ∨ sig = "Date" ∨ sig = "Null") →
        getFieldType sig false sfx
          = some (parseFaunaType sig (modeOfSuffix sfx)))
    ∧ (∀ (sfx : String) (name : List Char),
        (sfx = "" ∨ sfx = "_Create" ∨ sfx = "_FaunaCreate") →
        name ≠ [] →
        (∀ c ∈ name, c ≠ '>' ∧ c ≠ '|' ∧ Char.isWhitespace c = false) →
        getFieldType (String.mk ("Ref<".data ++ name ++ ['>'])) false sfx
          = some (parseFaunaType (String.mk ("Ref<".data ++ name ++ ['>']))
              (modeOfSuffix sfx))) := by
  constructor
  · rintro sfx sig (rfl | rfl | rfl)
      (rfl | rfl | rfl | rfl | rfl | rfl | rfl) <;> decide
  · rintro sfx name hsfx hne h
    have hparse :
        parseFaunaType (String.mk ("Ref<".data ++ name ++ ['>']))
            (modeOfSuffix sfx)
          = String.mk (match modeOfSuffix sfx with
              | RenderMode.main => name
              | RenderMode.create => name ++ " | DocumentReference".data
              | RenderMode.faunaCreate => "DocumentReference".data) := by
      show String.mk (parseFaunaTypeL ("Ref<".data ++ name ++ ['>'])
          (modeOfSuffix sfx)) = _
      rw [parseFaunaTypeL_refPlain name _ h]
    have hgf : getFieldType (String.mk ("Ref<".data ++ name ++ ['>'])) false sfx
        = some (constructTypeValue
            (if sfx ≠ "" then
              if sfx = "_Create" then String.mk name ++ " | DocumentReference"
              else "DocumentReference"
            else String.mk name) false) := by
      unfold getFieldType
      rw [if_neg (by exact Bool.false_ne_true),
        if_neg (by exact Bool.false_ne_true),
        if_neg (by exact Bool.false_ne_true),
        if_neg (by exact Bool.false_ne_true),
        if_neg (by exact Bool.false_ne_true),
        if_neg (by exact Bool.false_ne_true),
        if_neg (by exact Bool.false_ne_true)]
      rw [if_pos (show checkDataType
          (String.mk ("Ref<".data ++ name ++ ['>'])) "Ref<" = true from
        isPrefixOf_append2 "Ref<".data name ['>'])]
      unfold extractDataTypeFromNonPrimitiveSignature
      rw [if_pos rfl]
      rw [show (String.mk ("Ref<".data ++ name ++ ['>'])).data
          = "Ref<".data ++ name ++ ['>'] from rfl]
      rw [refCapture_plain name hne fun c hc => (h c hc).1]
      rfl
    rw [hgf, hparse]
    rcases hsfx with rfl | rfl | rfl <;> rfl

/-- Concatenation of a list of strings, in order. -/
def concatS : List String → String
  | [] => ""
  | x :: xs => x ++ concatS xs

theorem strAppend_empty (s : String) : s ++ "" = s := by
  cases s with
  | mk data =>
    show String.mk (data ++ []) = String.mk data
    rw [List.append_nil]

theorem strAppend_assoc (a b c : String) : a ++ b ++ c = a ++ (b ++ c) := by
  cases a with
  | mk ad =>
    cases b with
    | mk bd =>
      cases c with
      | mk cd =>
        show String.mk (ad ++ bd ++ cd) = String.mk (ad ++ (bd ++ cd))
        rw [List.append_assoc]

theorem createTypeFold_none (sfx : String) :
    ∀ fields : Fields, fields.foldl (createTypeFold sfx) none = none := by
  intro fields
  induction fields with
  | nil => rfl
  | cons kv rest ih =>
    rw [List.foldl_cons]
    have hstep : createTypeFold sfx none kv = none := by
      unfold createTypeFold
      cases fieldLine sfx kv <;> rfl
    rw [hstep, ih]

theorem createTypeFold_some (sfx : String) :
    ∀ (fields : Fields) (init : String),
      fields.foldl (createTypeFold sfx) (some init)
        = (optMapList (fieldLine sfx) fields).map
            (fun ls => init ++ concatS ls) := by
  intro fields
  induction fields with
  | nil =>
    intro init
    show some init = some (init ++ concatS [])
    rw [show concatS [] = "" from rfl, strAppend_empty]
  | cons kv rest ih =>
    intro init
    rw [List.foldl_cons]
    have hstep : createTypeFold sfx (some init) kv
        = (fieldLine sfx kv).map (fun l => init ++ l) := by
      unfold createTypeFold
      cases fieldLine sfx kv <;> rfl
    rw [hstep]
    cases hfl : fieldLine sfx kv with
    | none =>
      show rest.foldl (createTypeFold sfx) none = _
      rw [createTypeFold_none]
      cases hrest : optMapList (fieldLine sfx) rest <;>
        simp [optMapList, hfl, hrest]
    | some l =>
      show rest.foldl (createTypeFold sfx) (some (init ++ l)) = _
      rw [ih (init ++ l)]
      cases hrest : optMapList (fieldLine sfx) rest with
      | none => simp [optMapList, hfl, hrest]
      | some ls =>
        have hcons : optMapList (fieldLine sfx) (kv :: rest) = some (l :: ls) := by
          simp [optMapList, hfl, hrest]
        rw [hcons]
        show some (init ++ l ++ concatS ls) = some (init ++ concatS (l :: ls))
        rw [show concatS (l :: ls) = l ++ concatS ls from rfl,
          strAppend_assoc]

/-- C9: the Emitter preserves field insertion order — createType is the
header followed by exactly the per-field lines, concatenated in the order
of the field list, and the record with fields in order b, a, c lists its
properties in that same order. -/
theorem createType_preserves_field_order :
    (∀ (name : String) (fields : Fields) (sfx : String),
        createType name fields sfx
          = (optMapList (fieldLine sfx) fields).map
              (fun ls => ("type " ++ name ++ sfx ++ " = \x7b\n")
                ++ concatS ls ++ "\x7d;"))
    ∧ createType "T" [("b", ⟨"String"⟩), ("a", ⟨"Long"⟩), ("c", ⟨"Boolean"⟩)] ""
        = some "type T = \x7b\n\tb: string;\n\ta: number;\n\tc: boolean;\n\x7d;" := by
  refine ⟨?_, by decide⟩
  intro name fields sfx
  unfold createType
  rw [createTypeFold_some]
  cases optMapList (fieldLine sfx) fields <;> rfl

/-- The declaration block for one record, as a function of the record
name and its three createType results. -/
def blockText (n : String) (genericTypes crudTypeStr faunaCrudTypeStr : String) :
    String :=
  genericTypes ++ "\n\n" ++ crudTypeStr ++ "\n"
    ++ "type " ++ n ++ "_Replace = " ++ n ++ "_Create;" ++ "\n"
    ++ "type " ++ n ++ "_Update = Partial<" ++ n ++ "_Create>;"
    ++ "\n\n" ++ faunaCrudTypeStr ++ "\n"
    ++ "type " ++ n ++ "_FaunaReplace = " ++ n ++ "_FaunaCreate;" ++ "\n"
    ++ "type " ++ n ++ "_FaunaUpdate = Partial<" ++ n ++ "_FaunaCreate>;"

/-- Assemble a record's block out of its three optional createType
results, propagating a thrown TypeError. -/
def combineBlock (n : String) (mainOpt crudOpt faunaOpt : Option String) :
    Option (Option String) :=
  match mainOpt, crudOpt, faunaOpt with
  | some g, some c, some fc => some (some (blockText n g c fc))
  | _, _, _ => none

/-- C8: computed_fields only influences the Main declaration — the record
block with computed_fields present and the block with it absent are both
combineBlock applications whose _Create and _FaunaCreate components are
the same terms, createType of the plain fields, so those two declarations
are character-for-character identical in the two runs. -/
theorem computed_fields_frame :
    ∀ (n : String) (f cf : Fields),
      recordBlock ⟨n, some f, some cf⟩
          = combineBlock n (createType n (spreadMerge f cf) "")
              (createType n f "_Create") (createType n f "_FaunaCreate")
      ∧ recordBlock ⟨n, some f, none⟩
          = combineBlock n (createType n f "")
              (createType n f "_Create") (createType n f "_FaunaCreate") := by
  intro n f cf
  constructor
  · unfold recordBlock combineBlock blockText
    dsimp only
  · unfold recordBlock combineBlock blockText
    dsimp only

theorem optMapList_append {α β : Type} (f : α → Option β) :
    ∀ (l1 l2 : List α),
      optMapList f (l1 ++ l2)
        = (optMapList f l1).bind (fun a =>
            (optMapList f l2).map (fun b => a ++ b)) := by
  intro l1
  induction l1 with
  | nil =>
    intro l2
    rw [List.nil_append]
    cases optMapList f l2 <;> rfl
  | cons a rest ih =>
    intro l2
    rw [List.cons_append]
    cases hfa : f a <;>
      cases h1 : optMapList f rest <;>
        cases h2 : optMapList f l2 <;>
          simp [optMapList, hfa, h1, h2, ih l2]

/-- C7: a record whose fields mapping is absent is skipped — its map
callback returns undefined (some none: no declarations, no exception),
the block list of the whole schema is the blocks of the other records
with that one undefined slot inserted, the export list and the mapping
interface are exactly those of the schema without the record, and the
run still succeeds whenever the run without the record succeeds. -/
theorem fieldsless_record_skipped :
    ∀ (nm : String) (cf : Option Fields) (pre post : List Collection),
      recordBlock ⟨nm, none, cf⟩ = some none
      ∧ optMapList recordBlock (pre ++ (⟨nm, none, cf⟩ : Collection) :: post)
          = (optMapList recordBlock pre).bind (fun a =>
              (optMapList recordBlock post).map (fun b => a ++ none :: b))
      ∧ exportTypeStrOf (pre ++ (⟨nm, none, cf⟩ : Collection) :: post)
          = exportTypeStrOf (pre ++ post)
      ∧ mappingStrOf (pre ++ (⟨nm, none, cf⟩ : Collection) :: post)
          = mappingStrOf (pre ++ post)
      ∧ ((optMapList recordBlock (pre ++ post)).isSome →
          (optMapList recordBlock
            (pre ++ (⟨nm, none, cf⟩ : Collection) :: post)).isSome) := by
  intro nm cf pre post
  have hskip : recordBlock (⟨nm, none, cf⟩ : Collection) = some none := rfl
  have hmid : optMapList recordBlock ((⟨nm, none, cf⟩ : Collection) :: post)
      = (optMapList recordBlock post).map (fun b => none :: b) := by
    cases hpost : optMapList recordBlock post <;>
      simp [optMapList, hskip, hpost]
  have hfull : optMapList recordBlock
        (pre ++ (⟨nm, none, cf⟩ : Collection) :: post)
      = (optMapList recordBlock pre).bind (fun a =>
          (optMapList recordBlock post).map (fun b => a ++ none :: b)) := by
    rw [optMapList_append, hmid]
    cases optMapList recordBlock pre <;>
      cases optMapList recordBlock post <;> simp
  refine ⟨hskip, hfull, ?_, ?_, ?_⟩
  · unfold exportTypeStrOf
    rw [List.foldl_append, List.foldl_append]
    rfl
  · unfold mappingStrOf
    rw [List.foldl_append, List.foldl_append]
    rfl
  · intro hs
    rw [optMapList_append] at hs
    rw [hfull]
    cases h1 : optMapList recordBlock pre <;>
      cases h2 : optMapList recordBlock post <;>
        simp [h1, h2] at hs ⊢

theorem head?_of_isPrefixOf {α : Type} [DecidableEq α] (a : α) (as l : List α)
    (h : (a :: as).isPrefixOf l = true) : l.head? = some a := by
  cases l with
  | nil => simp [List.isPrefixOf] at h
  | cons b bs =>
    rw [List.isPrefixOf, Bool.and_eq_true, beq_iff_eq] at h
    rw [h.1]
    rfl

theorem isPrefixOf_false_of_head_ne {α : Type} [DecidableEq α]
    (a b : α) (as bs : List α) (hne : a ≠ b) :
    (a :: as).isPrefixOf (b :: bs) = false := by
  have hab : (a == b) = false := beq_eq_false_iff_ne.mpr hne
  show (a == b && as.isPrefixOf bs) = false
  rw [hab]
  rfl

theorem checkDataType_head (value kw : String) (a : Char) (rest : List Char)
    (hkw : kw.data = a :: rest) (h : checkDataType value kw = true) :
    value.data.head? = some a := by
  unfold checkDataType at h
  rw [hkw] at h
  exact head?_of_isPrefixOf a rest value.data h

theorem checkDataType_ne_true (value kw : String) (a : Char) (rest : List Char)
    (hkw : kw.data = a :: rest) (b : Char)
    (hhead : value.data.head? = some b) (hne : a ≠ b) :
    ¬ (checkDataType value kw = true) := by
  unfold checkDataType
  rw [hkw]
  cases hv : value.data with
  | nil => rw [hv] at hhead; simp at hhead
  | cons b2 bs =>
    rw [hv] at hhead
    have hb2 : b2 = b := by simpa using hhead
    subst hb2
    rw [isPrefixOf_false_of_head_ne a b2 rest bs hne]
    exact Bool.false_ne_true

theorem mem_of_getLast?_eq :
    ∀ (l : List Char) (x : Char), l.getLast? = some x → x ∈ l := by
  intro l
  induction l with
  | nil => intro x h; simp at h
  | cons a rest ih =>
    intro x h
    cases hr : rest with
    | nil =>
      subst hr
      have hax : a = x := by simpa using h
      subst hax
      exact List.mem_cons_self a []
    | cons b bs =>
      subst hr
      rw [List.getLast?_cons_cons] at h
      exact List.mem_cons_of_mem a (ih x h)

theorem lastIs_false_of_all (l : List Char) (ch : Char)
    (h : ∀ c ∈ l, c ≠ ch) : lastIs l ch = false := by
  unfold lastIs
  cases hl : l.getLast? with
  | none => rfl
  | some x =>
    have hx : x ∈ l := mem_of_getLast?_eq l x hl
    show (some x == some ch) = false
    rw [show ((some x == some ch)) = (x == ch) from rfl]
    exact beq_eq_false_iff_ne.mpr (h x hx)

/-- C10 (implicit): the Emitter's scalar detection is prefix matching —
for every field signature that begins with any of the seven scalar
keywords, getFieldType renders that scalar's target type, so longer
identifiers such as "Stringify" and "Integer" render as
"string"/"number" — whereas the Signature Parser's scalar mapping only
fires on an exact match: every plain identifier (no whitespace, pipe,
brackets or optional marker) that is not exactly a scalar keyword passes
through verbatim, in particular "Stringify" and "Integer". -/
theorem scalar_prefix_vs_exact :
    (∀ (value : String) (isArray : Bool) (sfx : String),
        (checkDataType value "String" = true →
          getFieldType value isArray sfx
            = some (constructTypeValue "string" isArray))
        ∧ (checkDataType value "Boolean" = true →
            getFieldType value isArray sfx
              = some (constructTypeValue "boolean" isArray))
        ∧ (checkDataType value "Date" = true →
            getFieldType value isArray sfx
              = some (constructTypeValue "DateStub" isArray))
        ∧ (checkDataType value "Long" = true →
            getFieldType value isArray sfx
              = some (constructTypeValue "number" isArray))
        ∧ (checkDataType value "Int" = true →
            getFieldType value isArray sfx
              = some (constructTypeValue "number" isArray))
        ∧ (checkDataType value "Null" = true →
            getFieldType value isArray sfx
              = some (constructTypeValue "null" isArray))
        ∧ (checkDataType value "Time" = true →
            getFieldType value isArray sfx
              = some (constructTypeValue "TimeStub" isArray)))
    ∧ (∀ (s : String) (m : RenderMode),
        (∀ c ∈ s.data, Char.isWhitespace c = false ∧ c ≠ '|' ∧ c ≠ '>'
          ∧ c ≠ '?' ∧ c ≠ '{') →
        ¬ (s = "String" ∨ s = "Boolean" ∨ s = "Long" ∨ s = "Int"
            ∨ s = "Time" ∨ s = "Date" ∨ s = "Null") →
        parseFaunaType s m = s)
    ∧ getFieldType "Stringify" false "" = some "string"
    ∧ getFieldType "Integer" false "" = some "number"
    ∧ parseFaunaType "Stringify" RenderMode.main = "Stringify"
    ∧ parseFaunaType "Integer" RenderMode.main = "Integer" := by
  refine ⟨?_, ?_, by decide, by decide, by decide, by decide⟩
  · intro value isArray sfx
    refine ⟨?_, ?_, ?_, ?_, ?_, ?_, ?_⟩
    · intro h
      unfold getFieldType
      rw [if_pos h]
    · intro h
      have hd := checkDataType_head value "Boolean" 'B' _ rfl h
      unfold getFieldType
      rw [if_neg (checkDataType_ne_true value "String" 'S' _ rfl 'B' hd
          (by decide)),
        if_pos h]
    · intro h
      have hd := checkDataType_head value "Date" 'D' _ rfl h
      unfold getFieldType
      rw [if_neg (checkDataType_ne_true value "String" 'S' _ rfl 'D' hd
          (by decide)),
        if_neg (checkDataType_ne_true value "Boolean" 'B' _ rfl 'D' hd
          (by decide)),
        if_pos h]
    · intro h
      have hd := checkDataType_head value "Long" 'L' _ rfl h
      unfold getFieldType
      rw [if_neg (checkDataType_ne_true value "String" 'S' _ rfl 'L' hd
          (by decide)),
        if_neg (checkDataType_ne_true value "Boolean" 'B' _ rfl 'L' hd
          (by decide)),
        if_neg (checkDataType_ne_true value "Date" 'D' _ rfl 'L' hd
          (by decide)),
        if_pos h]
    · intro h
      have hd := checkDataType_head value "Int" 'I' _ rfl h
      unfold getFieldType
      rw [if_neg (checkDataType_ne_true value "String" 'S' _ rfl 'I' hd
          (by decide)),
        if_neg (checkDataType_ne_true value "Boolean" 'B' _ rfl 'I' hd
          (by decide)),
        if_neg (checkDataType_ne_true value "Date" 'D' _ rfl 'I' hd
          (by decide)),
        if_neg (checkDataType_ne_true value "Long" 'L' _ rfl 'I' hd
          (by decide)),
        if_pos h]
    · intro h
      have hd := checkDataType_head value "Null" 'N' _ rfl h
      unfold getFieldType
      rw [if_neg (checkDataType_ne_true value "String" 'S' _ rfl 'N' hd
          (by decide)),
        if_neg (checkDataType_ne_true value "Boolean" 'B' _ rfl 'N' hd
          (by decide)),
        if_neg (checkDataType_ne_true value "Date" 'D' _ rfl 'N' hd
          (by decide)),
        if_neg (checkDataType_ne_true value "Long" 'L' _ rfl 'N' hd
          (by decide)),
        if_neg (checkDataType_ne_true value "Int" 'I' _ rfl 'N' hd
          (by decide)),
        if_pos h]
    · intro h
      have hd := checkDataType_head value "Time" 'T' _ rfl h
      unfold getFieldType
      rw [if_neg (checkDataType_ne_true value "String" 'S' _ rfl 'T' hd
          (by decide)),
        if_neg (checkDataType_ne_true value "Boolean" 'B' _ rfl 'T' hd
          (by decide)),
        if_neg (checkDataType_ne_true value "Date" 'D' _ rfl 'T' hd
          (by decide)),
        if_neg (checkDataType_ne_true value "Long" 'L' _ rfl 'T' hd
          (by decide)),
        if_neg (checkDataType_ne_true value "Int" 'I' _ rfl 'T' hd
          (by decide)),
        if_neg (checkDataType_ne_true value "Null" 'N' _ rfl 'T' hd
          (by decide)),
        if_pos h]
  · intro s m hchars hkw
    cases hs : s.data with
    | nil =>
      have hseq : s = String.mk [] := by
        have h0 : s = String.mk s.data := rfl
        rw [h0, hs]
      rw [hseq]
      rfl
    | cons c rest =>
      have hws : ∀ x ∈ s.data, Char.isWhitespace x = false :=
        fun x hx => (hchars x hx).1
      have htrim : trimL s.data = s.data := trimL_eq_self_of_all _ hws
      have hlastq : lastIs s.data '?' = false :=
        lastIs_false_of_all _ '?' fun x hx => (hchars x hx).2.2.2.1
      have hlastg : lastIs s.data '>' = false :=
        lastIs_false_of_all _ '>' fun x hx => (hchars x hx).2.2.1
      have hstrip : stripOpt s.data = s.data := by
        unfold stripOpt
        rw [hlastq]
        rfl
      have hhead : s.data.head? = some c := by rw [hs]; rfl
      have hcne : c ≠ '{' :=
        (hchars c (by rw [hs]; exact List.mem_cons_self c rest)).2.2.2.2
      unfold parseFaunaType parseFaunaTypeL
      rw [parseGo_succ_eq]
      unfold parseStep
      rw [htrim, hstrip]
      unfold parseStepT
      rw [if_neg (by
        unfold isTopLevelUnion
        rw [hasTopPipe_eq_false_of_no_pipe _ 0 fun x hx => (hchars x hx).2.1]
        exact Bool.false_ne_true)]
      rw [if_neg (by
        rw [hhead]
        simp [hcne])]
      rw [if_neg (by
        rw [Bool.and_eq_true]
        rintro ⟨-, h2⟩
        rw [hlastg] at h2
        exact Bool.false_ne_true h2)]
      rw [if_neg (by
        rw [Bool.and_eq_true]
        rintro ⟨-, h2⟩
        rw [hlastg] at h2
        exact Bool.false_ne_true h2)]
      push_neg at hkw
      obtain ⟨h1, h2, h3, h4, h5, h6, h7⟩ := hkw
      have hd : ∀ (t : String), s ≠ t → ¬ (s.data = t.data) :=
        fun t hst hdata => hst (by
          have h0 : s = String.mk s.data := rfl
          rw [h0, hdata])
      unfold scalarOrFallback
      rw [if_neg (hd "String" h1), if_neg (hd "Boolean" h2),
        if_neg (hd "Long" h3), if_neg (hd "Int" h4),
        if_neg (hd "Time" h5), if_neg (hd "Date" h6),
        if_neg (hd "Null" h7)]
      rfl
